import Mathlib

/-!
Verification of the extension-based request-handling composition engine
(`packages/functions`): outcome types (`Result`), the context composition
engine (`defineContext` in `context/define.ts` together with the `rpc`
extension in `extensions/rpc.ts`), and the native engine
(`createNativeAPI` / `activateAPI` in `context/native.ts`).

JavaScript objects are modelled as association lists of string keys in
insertion order (`Obj`), object spread as `mergeObj`, promises are
flattened (an `await` of a resolved value is the value itself), and code
that may throw is embedded in `Except`, where `Except.error t` is a raised
or rejected value `t` propagating to the caller.
-/

namespace Fn

/-- A JavaScript object value: its own enumerable string-keyed entries in
insertion order.  Well-formed objects have no duplicate keys. -/
abbrev Obj (V : Type) : Type := List (String × V)

/-- Property lookup (`o[k]`): the value at the first entry with key `k`,
`none` standing for JavaScript `undefined`. -/
def getKey {V : Type} : Obj V → String → Option V
  | [], _ => none
  | (k', v) :: rest, k => if k' = k then some v else getKey rest k

/-- `k in o`: whether the object has an entry with key `k`. -/
def hasKey {V : Type} (o : Obj V) (k : String) : Bool :=
  (getKey o k).isSome

/-- First-defined choice on options (`a` if present, otherwise `b`). -/
def orO {α : Type} (a b : Option α) : Option α :=
  match a with
  | some v => some v
  | none => b

/-- JavaScript object spread `\x7b ...a, ...b \x7d`: keys of `a` keep their
position, with values overridden by `b` on collision; keys only in `b` are
appended in `b`'s order. -/
def mergeObj {V : Type} (a b : Obj V) : Obj V :=
  a.map (fun p =>
    match getKey b p.1 with
    | some v => (p.1, v)
    | none => p)
  ++ b.filter (fun p => !(hasKey a p.1))

/-- `Map.set` on a string-keyed map: overwrite in place when the key is
present, append otherwise.  Models the `states` map of `createAPI`. -/
def setKey {V : Type} (o : Obj V) (k : String) (v : V) : Obj V :=
  if hasKey o k then
    o.map (fun p => if p.1 = k then (k, v) else p)
  else
    o ++ [(k, v)]

/-- The two-variant outcome container of `src/types/result.ts`
(`_tag` is the constructor). -/
inductive Result (T E : Type) : Type where
  | Success (value : T)
  | Failure (error : E)

/-- `success(value)` factory of `src/types/result.ts`. -/
def success {T E : Type} (value : T) : Result T E :=
  Result.Success value

/-- `failure(error)` factory of `src/types/result.ts`. -/
def failure {T E : Type} (error : E) : Result T E :=
  Result.Failure error

/-- `result.isSuccess()`: the closure stored by `success` returns `true`,
the one stored by `failure` returns `false`. -/
def Result.isSuccess {T E : Type} : Result T E → Bool
  | .Success _ => true
  | .Failure _ => false

/-- `result.isFailure()`. -/
def Result.isFailure {T E : Type} : Result T E → Bool
  | .Success _ => false
  | .Failure _ => true

/-- `result.match(\x7bonSuccess, onFailure\x7d)`: a `Success` invokes
`onSuccess` with its value, a `Failure` invokes `onFailure` with its
error.  (`match` is a reserved word in Lean, hence the name.) -/
def Result.matchWith {T E U : Type} (r : Result T E)
    (onSuccess : T → U) (onFailure : E → U) : U :=
  match r with
  | .Success v => onSuccess v
  | .Failure e => onFailure e

/-- Modelled from the spec: the structured error record produced by the
`exception` factory of `src/errors` (the file is not included under
`src/`); §6 requires a failure "tagged with a validation-error kind whose
message summarizes all field errors", and `native.ts` builds it as
`exception(\x7bname, message\x7d)`. -/
structure Exception : Type where
  name : String
  message : String
deriving DecidableEq

/-- Modelled from the spec: the `exception(\x7bname, message\x7d)` factory of
`src/errors` (not included under `src/`). -/
def exception (name message : String) : Exception :=
  ⟨name, message⟩

/-- A schema in the sense of the spec's Schema Adapter contract (§6):
given an unknown input it yields either the typed value or a structured
error, modelled here as the summarizing message. -/
abbrev Schema (I A : Type) : Type := I → Except String A

/-- Modelled from the spec: `parseArgs` of `src/functions/parse` (not
included under `src/`), used by the `rpc` extension: it applies the schema
adapter to the raw input and maps the failure branch to a `Failure`
carrying a validation-error `exception` (§6), the success branch to
`success data`. -/
def parseArgs {I A : Type} (schema : Schema I A) (input : I) :
    Result A Exception :=
  match schema input with
  | .ok data => success data
  | .error msg => failure (exception "ValidationError" msg)

/-- `try \x7b body \x7d catch (e) \x7b handler \x7d` for a body embedded in
`Except` whose catch-clause returns normally. -/
def tcRun {E A : Type} (body : Except E A) (handler : E → A) : A :=
  match body with
  | .ok a => a
  | .error e => handler e

/-- `tryCatch` of `src/types/try.ts`: run the thunk inside
`try/catch`, wrapping a normal return in `success` and a thrown value in
`failure`.  Totality of the Lean type records that the function itself
never throws. -/
def tryCatch {T E : Type} (fn : Unit → Except E T) : Result T E :=
  tcRun (do
    let v ← fn ()
    pure (success v))
    (fun error => failure error)

/-- `tryCatchAsync` of `src/types/try.ts`: `await Promise.resolve(fn())`
is the flattened outcome of the thunk (a synchronous throw and a rejected
promise both surface as the `Except.error` case), then as `tryCatch`. -/
def tryCatchAsync {T E : Type} (fn : Unit → Except E T) : Result T E :=
  tcRun (do
    let value ← fn ()
    pure (success value))
    (fun error => failure error)

/-- The `runtimeContext` option of `createAPI` (`context/define.ts`):
either a static context value or a zero-argument (possibly asynchronous,
here flattened) producer. -/
inductive RuntimeCtx (V : Type) : Type where
  | staticCtx (value : Obj V)
  | funcCtx (f : Unit → Obj V)

/-- An extension record of the `defineContext` system
(`ExtensionWithHKT` at runtime): `name`, optional `init` producing
per-activation persistent state, optional `request` computing a context
fragment from the stored state (`undefined` when absent, hence
`Option σ`) and the context so far, optional `functions` contributing
builder entries.  `request` here is the non-throwing case; the throwing
embedding is `ExtensionT` below. -/
structure ExtensionD (σ V F : Type) : Type where
  name : String
  init : Option (Unit → σ)
  request : Option (Option σ → Obj V → Obj V)
  functions : Option (Unit → Obj F)

/-- The `functions` mapping an extension contributes to the builder
(`ext.functions ? ext.functions() : \x7b\x7d`). -/
def extFns {σ V F : Type} (e : ExtensionD σ V F) : Obj F :=
  match e.functions with
  | some f => f ()
  | none => []

/-- `getContext` of `context/define.ts` (lines 145-161): the base is the
`runtimeContext` override when provided (a function override is awaited
first), otherwise the default context; `let ctx = \x7b...base\x7d` copies it;
then the `for (const ext of extensions)` loop merges each defined
`request` fragment, computed from `states.get(ext.name)` and the context
so far, onto the accumulated context. -/
def getContext {σ V F : Type} (defaultContext : Obj V)
    (runtimeContext : Option (RuntimeCtx V))
    (extensions : List (ExtensionD σ V F)) (states : Obj σ) : Obj V :=
  let base : Obj V :=
    match runtimeContext with
    | some (RuntimeCtx.funcCtx f) => f ()
    | some (RuntimeCtx.staticCtx v) => v
    | none => defaultContext
  extensions.foldl
    (fun ctx ext =>
      match ext.request with
      | some req => mergeObj ctx (req (getKey states ext.name) ctx)
      | none => ctx)
    (mergeObj [] base)

/-- Written from the spec's words (§4.2), for comparison with
`getContext`: visit the extensions in declaration order; each one that
defines `request` has its fragment computed from its stored state and the
context accumulated so far and shallow-merged on (later fields overwrite
earlier ones). -/
def resolveSpecLoop {σ V F : Type} (states : Obj σ) :
    List (ExtensionD σ V F) → Obj V → Obj V
  | [], ctx => ctx
  | ext :: rest, ctx =>
    match ext.request with
    | none => resolveSpecLoop states rest ctx
    | some req =>
      resolveSpecLoop states rest
        (mergeObj ctx (req (getKey states ext.name) ctx))

/-- Written from the spec's words (§4.2): the context resolved for one
call is a left fold whose base is the caller-supplied override when
provided (fully replacing the default; awaited first when it is a
function) and the default context otherwise. -/
def resolvedContextSpec {σ V F : Type} (defaultContext : Obj V)
    (runtimeContext : Option (RuntimeCtx V))
    (extensions : List (ExtensionD σ V F)) (states : Obj σ) : Obj V :=
  let base : Obj V :=
    match runtimeContext with
    | none => defaultContext
    | some (RuntimeCtx.staticCtx v) => v
    | some (RuntimeCtx.funcCtx f) => f ()
  resolveSpecLoop states extensions base

/-- The `states` map built at `createAPI` time (`context/define.ts` lines
133-139): a fresh map per activation, filled by
`extensions.forEach((e) => e.init && states.set(e.name, e.init()))`.
The second component instruments the run, recording the name of each
extension whose `init` is invoked, in invocation order. -/
def initStatesTr {σ V F : Type} (extensions : List (ExtensionD σ V F)) :
    Obj σ × List String :=
  extensions.foldl
    (fun acc e =>
      match e.init with
      | some i => (setKey acc.1 e.name (i ()), acc.2 ++ [e.name])
      | none => acc)
    ([], [])

/-- The per-activation extension state map of one `createAPI` call. -/
def initStates {σ V F : Type} (extensions : List (ExtensionD σ V F)) :
    Obj σ :=
  (initStatesTr extensions).1

/-- The context one call of an endpoint activated by a `createAPI` call
resolves: `getContext` closed over that call's own freshly built
`states` map. -/
def createAPIResolve {σ V F : Type} (defaultContext : Obj V)
    (runtimeContext : Option (RuntimeCtx V))
    (extensions : List (ExtensionD σ V F)) : Obj V :=
  getContext defaultContext runtimeContext extensions
    (initStates extensions)

/-- The builder object `t` of `context/define.ts` (lines 78-84):
`extensions.reduce((acc, ext) => (\x7b...acc, ...ext.functions?()\x7d),
\x7brouter: r => r\x7d)`; `routerV` stands for the initial `router` entry. -/
def buildT {σ V F : Type} (routerV : F)
    (extensions : List (ExtensionD σ V F)) : Obj F :=
  extensions.foldl (fun acc e => mergeObj acc (extFns e))
    [("router", routerV)]

/-- The builder entry that ends up under key `k`: the latest extension in
the list whose `functions` define `k` wins (used to state the
last-write-wins property of `buildT`). -/
def lastContrib {σ V F : Type} (extensions : List (ExtensionD σ V F))
    (k : String) : Option F :=
  extensions.foldl (fun acc e => orO (getKey (extFns e) k) acc) none

/-- `router` of `context/native.ts` (lines 208-210) and the initial
builder entry of `context/define.ts` (line 83): the identity on its
routes mapping. -/
def router {R : Type} (routes : R) : R :=
  routes

/-- Instrumentation of one endpoint call: the observable steps of the
dispatch path, in order.  `ctxResolutionStarted` marks the invocation of
the context provider, `requestStep name` one extension context/request
callback, `handlerInvoked` the user handler. -/
inductive CallEvent : Type where
  | ctxResolutionStarted
  | requestStep (name : String)
  | handlerInvoked
deriving DecidableEq

/-- The extension record of the `defineContext` system with a `request`
step that may raise (`Except.error` is a raised/rejected value `t` of
type `Θ`). -/
structure ExtensionT (σ V Θ : Type) : Type where
  name : String
  init : Option (Unit → σ)
  request : Option (Option σ → Obj V → Except Θ (Obj V))

/-- The extension loop of `getContext` (`context/define.ts` lines
154-159) when `request` steps may raise: a raised value aborts the loop
and propagates. -/
def getContextLoop {σ V Θ : Type} (states : Obj σ) :
    List (ExtensionT σ V Θ) → Obj V → Except Θ (Obj V)
  | [], ctx => .ok ctx
  | ext :: rest, ctx =>
    match ext.request with
    | none => getContextLoop states rest ctx
    | some req =>
      match req (getKey states ext.name) ctx with
      | .error t => .error t
      | .ok part => getContextLoop states rest (mergeObj ctx part)

/-- `getContext` of `context/define.ts` in the throwing embedding. -/
def getContextThrow {σ V Θ : Type} (defaultContext : Obj V)
    (runtimeContext : Option (RuntimeCtx V))
    (extensions : List (ExtensionT σ V Θ)) (states : Obj σ) :
    Except Θ (Obj V) :=
  let base : Obj V :=
    match runtimeContext with
    | some (RuntimeCtx.funcCtx f) => f ()
    | some (RuntimeCtx.staticCtx v) => v
    | none => defaultContext
  getContextLoop states extensions (mergeObj [] base)

/-- The activated endpoint produced by the `rpc` extension
(`extensions/rpc.ts` lines 149-157, `query`; `mutation` at 159-167 is
textually identical): `parseArgs` the raw input, then
`parsed.match(\x7bonSuccess, onFailure\x7d)` — on success await the context
provider and invoke the handler, on failure resolve to that `Failure`
without touching the provider.  Provider and handler may raise; the
second component is the event trace of the call. -/
def rpcEndpoint {I A V Θ O : Type} (schema : Schema I A)
    (handler : Obj V → A → Except Θ (Result O Exception))
    (contextProvider : Unit → Except Θ (Obj V)) (input : I) :
    Except Θ (Result O Exception) × List CallEvent :=
  let parsed := parseArgs schema input
  parsed.matchWith
    (fun data =>
      match contextProvider () with
      | .error t => (.error t, [CallEvent.ctxResolutionStarted])
      | .ok ctx =>
        match handler ctx data with
        | .error t =>
          (.error t,
            [CallEvent.ctxResolutionStarted, CallEvent.handlerInvoked])
        | .ok r =>
          (.ok r,
            [CallEvent.ctxResolutionStarted, CallEvent.handlerInvoked]))
    (fun error => (.ok (failure error), []))

/-- An extension of the native system (`context/native.ts` lines
120-135): optional `context` callback adding fields at call time, which
may raise. -/
structure NativeExtension (V Θ : Type) : Type where
  name : String
  context : Option (Obj V → Except Θ (Obj V))

/-- The context-building loop of the native endpoint
(`context/native.ts` lines 254-259): each extension with a `context`
callback is awaited in list order, its fragment merged onto the
accumulated context; a raise aborts and propagates.  The trace records
each callback run. -/
def nativeResolveCtx {V Θ : Type} :
    List (NativeExtension V Θ) → Obj V →
      Except Θ (Obj V) × List CallEvent
  | [], ctx => (.ok ctx, [])
  | ext :: rest, ctx =>
    match ext.context with
    | none => nativeResolveCtx rest ctx
    | some f =>
      match f ctx with
      | .error t => (.error t, [CallEvent.requestStep ext.name])
      | .ok part =>
        let r := nativeResolveCtx rest (mergeObj ctx part)
        (r.1, CallEvent.requestStep ext.name :: r.2)

/-- The endpoint body of `activateAPI` (`context/native.ts` lines
241-264): `safeParse` the input (the schema adapter), on failure return a
`ValidationError` `Failure` at once; otherwise build the full context
from `\x7b...context\x7d` through the extension loop and call the handler
with the parsed data and that context, returning its result unchanged. -/
def nativeEndpoint {I A V Θ O : Type} (schema : Schema I A)
    (handler : A → Obj V → Except Θ (Result O Exception))
    (context : Obj V) (extensions : List (NativeExtension V Θ))
    (input : I) : Except Θ (Result O Exception) × List CallEvent :=
  match schema input with
  | .error msg =>
    (.ok (failure (exception "ValidationError" msg)), [])
  | .ok data =>
    match nativeResolveCtx extensions (mergeObj [] context) with
    | (.error t, evs) => (.error t, evs)
    | (.ok fullContext, evs) =>
      match handler data fullContext with
      | .error t => (.error t, evs ++ [CallEvent.handlerInvoked])
      | .ok r => (.ok r, evs ++ [CallEvent.handlerInvoked])

/-- A runtime JavaScript value as seen by `activate` in
`context/define.ts`: a function (whose behavior when applied to the
context provider of type `CP` is the carried closure), an object with its
own entries and the enumerable entries inherited from its prototype
chain, a primitive, or `null`. -/
inductive DNode (CP V : Type) : Type where
  | func (f : CP → DNode CP V)
  | obj (own : List (String × DNode CP V))
      (inherited : List (String × DNode CP V))
  | prim (v : V)
  | null

/-- Whether an entry list has an entry with key `k`. -/
def hasKeyL {α : Type} (entries : List (String × α)) (k : String) : Bool :=
  entries.any (fun p => p.1 == k)

/-- The entries `for (const k in node)` visits, with their values: the
object's own enumerable entries in insertion order, then the inherited
ones not shadowed by an own key. -/
def forInEntries {α : Type} (own inherited : List (String × α)) :
    List (String × α) :=
  own ++ inherited.filter (fun p => !(hasKeyL own p.1))

mutual

/-- `activate` of `context/define.ts` (lines 167-175): a function node is
applied to the context provider (`node(getContext)`); an object node is
rebuilt as a fresh plain object whose entries are the recursively
activated values at every key `for...in` visits (own entries, then
unshadowed inherited ones — there is no own-property guard in this
engine); anything else is returned as is.  The inherited entries are
activated before the shadowing filter; activation is pure, so this equals
filtering first (`activateD_obj_forIn` below). -/
def activateD {CP V : Type} (cp : CP) : DNode CP V → DNode CP V
  | .func f => f cp
  | .obj own inherited =>
    .obj
      (activateDList cp own ++
        (activateDList cp inherited).filter
          (fun p => !(hasKeyL own p.1)))
      []
  | .prim v => .prim v
  | .null => .null

/-- Entry-wise activation of an entry list. -/
def activateDList {CP V : Type} (cp : CP) :
    List (String × DNode CP V) → List (String × DNode CP V)
  | [] => []
  | (k, v) :: rest => (k, activateD cp v) :: activateDList cp rest

end

/-- A runtime JavaScript value as seen by `activateAPI` in
`context/native.ts`: a function value carrying an optional `_type`
property and an opaque payload `P` (its callable behavior), an object
with own and inherited enumerable entries, a string, a primitive, or
`null`. -/
inductive NNode (P V : Type) : Type where
  | funcN (tag : Option String) (payload : P)
  | objN (own : List (String × NNode P V))
      (inherited : List (String × NNode P V))
  | strN (s : String)
  | primN (v : V)
  | nullN

/-- The query/mutation definition value `t.query` / `t.mutation` of
`context/native.ts` builds (lines 184-188 and 201-205): a plain object
`\x7b_type, args, handler\x7d` — an object, not a function value. -/
def tQueryN {P V : Type} (tag : String) (args : NNode P V)
    (handler : P) : NNode P V :=
  NNode.objN
    [("_type", NNode.strN tag), ("args", args),
      ("handler", NNode.funcN none handler)]
    []

mutual

/-- `activateAPI` of `context/native.ts` (lines 232-282): a function
value whose `_type` is `"query"` or `"mutation"` is replaced by a fresh
endpoint function (built by `mkEndpoint` from its payload); any other
function value is returned as is; an object is rebuilt as a fresh plain
object from its own entries only (`hasOwnProperty` guard, line 274),
recursively activated; anything else is returned as is. -/
def activateAPIN {P V : Type} (mkEndpoint : P → P) :
    NNode P V → NNode P V
  | .funcN tag payload =>
    if tag = some "query" ∨ tag = some "mutation" then
      .funcN none (mkEndpoint payload)
    else
      .funcN tag payload
  | .objN own _inherited => .objN (activateNList mkEndpoint own) []
  | .strN s => .strN s
  | .primN v => .primN v
  | .nullN => .nullN

/-- Entry-wise activation of an own-entry list. -/
def activateNList {P V : Type} (mkEndpoint : P → P) :
    List (String × NNode P V) → List (String × NNode P V)
  | [] => []
  | (k, v) :: rest =>
    (k, activateAPIN mkEndpoint v) :: activateNList mkEndpoint rest

end

/-- Test fixture for the spec's merge-order example (§8): two extensions
whose `request` fragments are `\x7ba: va\x7d` and then `\x7ba: va1, b: vb\x7d` in
list order. -/
def exampleExts {V : Type} (va va1 vb : V) :
    List (ExtensionD Unit V Unit) :=
  [⟨"e1", none, some (fun _ _ => [("a", va)]), none⟩,
    ⟨"e2", none, some (fun _ _ => [("a", va1), ("b", vb)]), none⟩]

/-- Test fixture: a schema accepting only `0`. -/
def schemaNat : Schema Nat Nat :=
  fun n => if n = 0 then .ok n else .error "bad"

/-- Test fixture: an extension whose persistent state is the counter
value `n` produced by `init` and echoed into the context by `request`. -/
def counterExt (n : Nat) : ExtensionD Nat Nat Unit :=
  ⟨"c", some (fun _ => n), some (fun s _ => [("count", s.getD 0)]), none⟩

/-- Test fixture: an extension contributing the builder function `n`
under the name `"q"`. -/
def fnExt (nm : String) (n : Nat) : ExtensionD Unit Unit Nat :=
  ⟨nm, none, none, some (fun _ => [("q", n)])⟩

/-- Test fixture: a query declaration of the native system, as the value
`t.query(\x7bargs, handler\x7d)` actually builds — `args` stands for the
schema object, the payload `()` for the handler function. -/
def demoDecl : NNode Unit Nat :=
  tQueryN "query" (NNode.objN [] []) ()

/-- Test fixture: the declaration tree
`router(\x7ba: \x7bb: queryDecl\x7d\x7d)` of the native system. -/
def demoTree : NNode Unit Nat :=
  router (NNode.objN [("a", NNode.objN [("b", demoDecl)] [])] [])

/-- Whether a native node is a function value (callable). -/
def isFuncN {P V : Type} : NNode P V → Bool
  | .funcN _ _ => true
  | _ => false

/-- Property lookup on a native object node's own entries (`undefined`
on non-objects). -/
def getN {P V : Type} : NNode P V → String → Option (NNode P V)
  | .objN own _, k => getKey own k
  | _, _ => none

theorem hasKey_nil {V : Type} (k : String) :
    hasKey ([] : Obj V) k = false := rfl

theorem getKey_append {V : Type} (xs ys : Obj V) (k : String) :
    getKey (xs ++ ys) k = orO (getKey xs k) (getKey ys k) := by
  induction xs with
  | nil => simp [getKey, orO]
  | cons p rest ih =>
    obtain ⟨k', v⟩ := p
    by_cases h : k' = k <;> simp [getKey, h, orO, ih]

theorem getKey_map_override {V : Type} (a b : Obj V) (k : String) :
    getKey
        (a.map (fun p =>
          match getKey b p.1 with
          | some v => (p.1, v)
          | none => p)) k
      = (getKey a k).map (fun v => (getKey b k).getD v) := by
  induction a with
  | nil => simp [getKey]
  | cons p rest ih =>
    obtain ⟨k', v⟩ := p
    by_cases h : k' = k
    · subst h
      cases hb : getKey b k' <;> simp [getKey, hb]
    · cases hb : getKey b k' <;> simp [getKey, h, hb, ih]

theorem getKey_filter_shadow {V : Type} (a b : Obj V) (k : String) :
    getKey (b.filter (fun p => !(hasKey a p.1))) k
      = if hasKey a k then none else getKey b k := by
  induction b with
  | nil => simp [getKey]
  | cons p rest ih =>
    obtain ⟨k', v⟩ := p
    by_cases h : k' = k
    · subst h
      cases ha : hasKey a k' <;> simp [getKey, ha, ih]
    · cases ha : hasKey a k' <;> simp [getKey, h, ha, ih]

/-- Lookup after spread: the later object's binding wins, the earlier
one's is the fallback. -/
theorem getKey_mergeObj {V : Type} (a b : Obj V) (k : String) :
    getKey (mergeObj a b) k = orO (getKey b k) (getKey a k) := by
  unfold mergeObj
  rw [getKey_append, getKey_map_override, getKey_filter_shadow]
  unfold hasKey
  cases ha : getKey a k <;> cases hb : getKey b k <;> simp [orO]

/-- Spreading into an empty object copies it. -/
theorem mergeObj_nil {V : Type} (b : Obj V) : mergeObj [] b = b := by
  unfold mergeObj
  simp [hasKey, getKey]

/-- The extension loop of `getContext` is the spec's left fold. -/
theorem getContext_loop_eq_spec {σ V F : Type} (states : Obj σ)
    (exts : List (ExtensionD σ V F)) (ctx : Obj V) :
    exts.foldl
        (fun ctx ext =>
          match ext.request with
          | some req => mergeObj ctx (req (getKey states ext.name) ctx)
          | none => ctx)
        ctx
      = resolveSpecLoop states exts ctx := by
  induction exts generalizing ctx with
  | nil => rfl
  | cons e rest ih =>
    cases h : e.request <;>
      simp [resolveSpecLoop, h, List.foldl, ih]

/-- C1: for every default context, optional runtime-context override and
ordered extension list, `getContext` resolves exactly the spec's left
fold: the base is the override when provided (a function override awaited
first), otherwise the default; each extension defining `request` is
visited in declaration order, its fragment computed from its stored state
and the context so far and shallow-merged with later fields winning.  In
particular, for `request` fragments `\x7ba: va\x7d` then `\x7ba: va1, b: vb\x7d`
over any base, the resolved context holds `va1` at `"a"`, `vb` at `"b"`,
and the base's binding at every other key. -/
theorem c1_context_resolution_fold :
    (∀ (σ V F : Type) (d : Obj V) (rc : Option (RuntimeCtx V))
        (exts : List (ExtensionD σ V F)) (states : Obj σ),
      getContext d rc exts states = resolvedContextSpec d rc exts states)
  ∧ ∀ (V : Type) (base : Obj V) (va va1 vb : V) (k : String),
      k ≠ "a" → k ≠ "b" →
        getKey (getContext base none (exampleExts va va1 vb) []) "a"
            = some va1
        ∧ getKey (getContext base none (exampleExts va va1 vb) []) "b"
            = some vb
        ∧ getKey (getContext base none (exampleExts va va1 vb) []) k
            = getKey base k := by
  constructor
  · intro σ V F d rc exts states
    cases rc with
    | none =>
      simp only [getContext, resolvedContextSpec]
      rw [mergeObj_nil, getContext_loop_eq_spec]
    | some r =>
      cases r <;>
        (simp only [getContext, resolvedContextSpec]
         rw [mergeObj_nil, getContext_loop_eq_spec])
  · intro V base va va1 vb k hka hkb
    have hres :
        getContext base none (exampleExts va va1 vb) ([] : Obj Unit)
          = mergeObj (mergeObj base [("a", va)])
              [("a", va1), ("b", vb)] := by
      simp only [getContext, exampleExts]
      rw [mergeObj_nil]
      rfl
    refine ⟨?_, ?_, ?_⟩
    · rw [hres, getKey_mergeObj]
      simp [getKey, orO]
    · rw [hres, getKey_mergeObj]
      simp [getKey, orO]
    · rw [hres, getKey_mergeObj, getKey_mergeObj]
      simp [getKey, Ne.symm hka, Ne.symm hkb, orO]

/-- Closed instance of `c1_context_resolution_fold`: concrete base
`\x7bx: 5\x7d` and fragments `\x7ba: 1\x7d`, `\x7ba: 2, b: 3\x7d`. -/
theorem c1_witness :
    getContext [("x", (5 : Nat))] none (exampleExts 1 2 3) []
        = resolvedContextSpec [("x", (5 : Nat))] none
            (exampleExts 1 2 3) []
    ∧ getKey (getContext [("x", (5 : Nat))] none (exampleExts 1 2 3) [])
        "a" = some 2
    ∧ getKey (getContext [("x", (5 : Nat))] none (exampleExts 1 2 3) [])
        "x" = getKey [("x", (5 : Nat))] "x" := by
  refine ⟨c1_context_resolution_fold.1 Unit Nat Unit _ _ _ _, ?_, ?_⟩
  · exact (c1_context_resolution_fold.2 Nat [("x", 5)] 1 2 3 "x"
      (by decide) (by decide)).1
  · exact (c1_context_resolution_fold.2 Nat [("x", 5)] 1 2 3 "x"
      (by decide) (by decide)).2.2

/-- C5: for every value `v`, `success v` answers `true` to `isSuccess`,
`false` to `isFailure`, and its `match` invokes exactly the `onSuccess`
handler with `v` (the result is `onSuccess v` for arbitrary handlers);
symmetrically `failure e` answers `true` to `isFailure`, `false` to
`isSuccess`, and its `match` invokes exactly the `onFailure` handler
with `e`. -/
theorem c5_result_variant_operations :
    ∀ (T E U : Type) (v : T) (e : E) (f : T → U) (g : E → U),
      (success v : Result T E).isSuccess = true
      ∧ (success v : Result T E).isFailure = false
      ∧ (success v : Result T E).matchWith f g = f v
      ∧ (failure e : Result T E).isFailure = true
      ∧ (failure e : Result T E).isSuccess = false
      ∧ (failure e : Result T E).matchWith f g = g e := by
  intro T E U v e f g
  exact ⟨rfl, rfl, rfl, rfl, rfl, rfl⟩

/-- C6: `router` returns exactly its input mapping — the identity, with
no key or value altered and no copy made (in the model, the output is
the same value as the input). -/
theorem c6_router_is_identity :
    ∀ (R : Type) (r : R), router r = r := by
  intro R r
  rfl

/-- C10: `tryCatch` never throws — whatever the thunk does, the outcome
is a returned `Result`: `success` of the returned value when the thunk
completes normally, `failure` of the thrown value exactly when it
throws; `tryCatchAsync` likewise always resolves to that `Result`. -/
theorem c10_tryCatch_never_throws :
    ∀ (T E : Type) (fn : Unit → Except E T),
      tryCatch fn
          = (match fn () with
            | .ok v => success v
            | .error e => failure e)
      ∧ tryCatchAsync fn
          = (match fn () with
            | .ok v => success v
            | .error e => failure e) := by
  intro T E fn
  constructor <;>
    (cases h : fn () <;>
      simp [tryCatch, tryCatchAsync, tcRun, h, Bind.bind, Except.bind,
        Pure.pure, Except.pure])

/-- C2: for every endpoint of either dispatch engine and every raw input
failing schema validation, the call returns a `Failure` carrying a
validation error, and the event trace is empty: the handler is never
invoked and context resolution is never started (no extension request
step runs). -/
theorem c2_validation_short_circuits :
    ∀ (I A V Θ O : Type) (schema : Schema I A)
      (handlerR : Obj V → A → Except Θ (Result O Exception))
      (provider : Unit → Except Θ (Obj V))
      (handlerN : A → Obj V → Except Θ (Result O Exception))
      (context : Obj V) (extensions : List (NativeExtension V Θ))
      (input : I) (msg : String),
      schema input = .error msg →
        rpcEndpoint schema handlerR provider input
            = (.ok (failure (exception "ValidationError" msg)), [])
        ∧ nativeEndpoint schema handlerN context extensions input
            = (.ok (failure (exception "ValidationError" msg)), []) := by
  intro I A V Θ O schema handlerR provider handlerN context
    extensions input msg h
  constructor
  · simp [rpcEndpoint, parseArgs, h, Result.matchWith, failure]
  · simp [nativeEndpoint, h]

/-- Closed instance of `c2_validation_short_circuits`: the schema
accepting only `0` rejects the input `1`; both endpoints return the
validation `Failure` with an empty trace. -/
theorem c2_witness :
    rpcEndpoint schemaNat
        (fun (_ : Obj Nat) (a : Nat) =>
          (Except.ok (success a) : Except String (Result Nat Exception)))
        (fun _ => Except.ok []) 1
      = (Except.ok (failure (exception "ValidationError" "bad")), [])
    ∧ nativeEndpoint schemaNat
        (fun (a : Nat) (_ : Obj Nat) =>
          (Except.ok (success a) : Except String (Result Nat Exception)))
        [] [] 1
      = (Except.ok (failure (exception "ValidationError" "bad")), []) :=
  c2_validation_short_circuits Nat Nat Nat String Nat schemaNat
    (fun _ a => Except.ok (success a)) (fun _ => Except.ok [])
    (fun a _ => Except.ok (success a)) [] [] 1 "bad" (by rfl)

/-- C3: once validation has succeeded, a raise is never converted to a
`Result`: if the context provider (and with it any extension `request`
step, as the first conjunct about `getContextThrow` shows) or the handler
raises, the call raises that value at the caller of the activated
endpoint; whereas a handler returning `failure e` resolves normally to
that `Failure`, passed through unchanged.  Both dispatch engines. -/
theorem c3_raises_propagate_failures_pass :
    ∀ (I A V Θ O : Type) (schema : Schema I A) (input : I) (data : A),
      schema input = .ok data →
      (∀ (σ : Type) (d : Obj V) (states : Obj σ) (nm : String)
          (ini : Option (Unit → σ)) (rest : List (ExtensionT σ V Θ))
          (t : Θ),
          getContextThrow d none
              (⟨nm, ini, some (fun _ _ => .error t)⟩ :: rest) states
            = .error t)
      ∧ (∀ (handler : Obj V → A → Except Θ (Result O Exception))
            (provider : Unit → Except Θ (Obj V)) (t : Θ),
          provider () = .error t →
            (rpcEndpoint schema handler provider input).1 = .error t)
      ∧ (∀ (handler : Obj V → A → Except Θ (Result O Exception))
            (provider : Unit → Except Θ (Obj V)) (ctx : Obj V) (t : Θ),
          provider () = .ok ctx → handler ctx data = .error t →
            (rpcEndpoint schema handler provider input).1 = .error t)
      ∧ (∀ (handler : Obj V → A → Except Θ (Result O Exception))
            (provider : Unit → Except Θ (Obj V)) (ctx : Obj V)
            (e : Exception),
          provider () = .ok ctx →
            handler ctx data = .ok (failure e) →
              (rpcEndpoint schema handler provider input).1
                = .ok (failure e))
      ∧ (∀ (handler : A → Obj V → Except Θ (Result O Exception))
            (context : Obj V) (extensions : List (NativeExtension V Θ))
            (t : Θ) (evs : List CallEvent),
          nativeResolveCtx extensions (mergeObj [] context)
              = (.error t, evs) →
            nativeEndpoint schema handler context extensions input
              = (.error t, evs))
      ∧ (∀ (handler : A → Obj V → Except Θ (Result O Exception))
            (context full : Obj V)
            (extensions : List (NativeExtension V Θ)) (t : Θ)
            (evs : List CallEvent),
          nativeResolveCtx extensions (mergeObj [] context)
              = (.ok full, evs) →
            handler data full = .error t →
              (nativeEndpoint schema handler context extensions input).1
                = .error t)
      ∧ ∀ (handler : A → Obj V → Except Θ (Result O Exception))
            (context full : Obj V)
            (extensions : List (NativeExtension V Θ)) (e : Exception)
            (evs : List CallEvent),
          nativeResolveCtx extensions (mergeObj [] context)
              = (.ok full, evs) →
            handler data full = .ok (failure e) →
              (nativeEndpoint schema handler context extensions input).1
                = .ok (failure e) := by
  intro I A V Θ O schema input data hv
  refine ⟨?_, ?_, ?_, ?_, ?_, ?_, ?_⟩
  · intro σ d states nm ini rest t
    simp [getContextThrow, getContextLoop]
  · intro handler provider t hp
    simp [rpcEndpoint, parseArgs, hv, Result.matchWith, success, hp]
  · intro handler provider ctx t hp hh
    simp [rpcEndpoint, parseArgs, hv, Result.matchWith, success, hp, hh]
  · intro handler provider ctx e hp hh
    simp [rpcEndpoint, parseArgs, hv, Result.matchWith, success, hp, hh]
  · intro handler context extensions t evs hr
    simp [nativeEndpoint, hv, hr]
  · intro handler context full extensions t evs hr hh
    simp [nativeEndpoint, hv, hr, hh]
  · intro handler context full extensions e evs hr hh
    simp [nativeEndpoint, hv, hr, hh]

/-- Closed instance of `c3_raises_propagate_failures_pass`: with the
schema accepting `0`, a handler that raises `"boom"` makes the call raise
`"boom"`; a handler returning `failure (exception "E" "m")` makes the
call resolve to exactly that `Failure`; and a context resolved through an
extension whose `request` raises `"ext-boom"` raises that value. -/
theorem c3_witness :
    (rpcEndpoint schemaNat
        (fun (_ : Obj Nat) (_ : Nat) =>
          (Except.error "boom" : Except String (Result Nat Exception)))
        (fun _ => Except.ok []) 0).1 = Except.error "boom"
    ∧ (rpcEndpoint schemaNat
        (fun (_ : Obj Nat) (_ : Nat) =>
          (Except.ok (failure (exception "E" "m")) :
            Except String (Result Nat Exception)))
        (fun _ => Except.ok []) 0).1
      = Except.ok (failure (exception "E" "m"))
    ∧ getContextThrow ([] : Obj Nat) none
        ([⟨"bad", none,
            some (fun (_ : Option Unit) _ => Except.error "ext-boom")⟩] :
          List (ExtensionT Unit Nat String)) []
      = Except.error "ext-boom" := by
  have h := c3_raises_propagate_failures_pass Nat Nat Nat String Nat
    schemaNat 0 0 (by rfl)
  refine ⟨?_, ?_, ?_⟩
  · exact h.2.2.1 (fun _ _ => Except.error "boom") (fun _ => Except.ok [])
      [] "boom" (by rfl) (by rfl)
  · exact h.2.2.2.1 (fun _ _ => Except.ok (failure (exception "E" "m")))
      (fun _ => Except.ok []) [] (exception "E" "m") (by rfl) (by rfl)
  · exact h.1 Unit [] [] "bad" none [] "ext-boom"

theorem activateDList_append {CP V : Type} (cp : CP)
    (xs ys : List (String × DNode CP V)) :
    activateDList cp (xs ++ ys)
      = activateDList cp xs ++ activateDList cp ys := by
  induction xs with
  | nil => rfl
  | cons p rest ih =>
    obtain ⟨k, v⟩ := p
    simp [activateDList, ih]

theorem activateDList_filter {CP V : Type} (cp : CP)
    (own : List (String × DNode CP V))
    (ys : List (String × DNode CP V)) :
    activateDList cp (ys.filter (fun p => !(hasKeyL own p.1)))
      = (activateDList cp ys).filter (fun p => !(hasKeyL own p.1)) := by
  induction ys with
  | nil => rfl
  | cons p rest ih =>
    obtain ⟨k, v⟩ := p
    by_cases h : hasKeyL own k <;>
      simp [activateDList, List.filter_cons, h, ih]

/-- The object case of `activateD` is exactly entry-wise activation of
the entries `for...in` visits: activating every inherited entry and then
dropping the shadowed ones equals dropping them first. -/
theorem activateD_obj_forIn {CP V : Type} (cp : CP)
    (own inherited : List (String × DNode CP V)) :
    activateD cp (DNode.obj own inherited)
      = DNode.obj (activateDList cp (forInEntries own inherited)) [] := by
  show DNode.obj
      (activateDList cp own ++
        (activateDList cp inherited).filter (fun p => !(hasKeyL own p.1)))
      []
    = _
  rw [forInEntries, activateDList_append, activateDList_filter]

theorem orO_none {α : Type} (a : Option α) : orO a none = a := by
  cases a <;> rfl

theorem orO_assoc {α : Type} (a b c : Option α) :
    orO (orO a b) c = orO a (orO b c) := by
  cases a <;> cases b <;> rfl

/-- The init loop of `createAPI` invokes `init` exactly once per
extension that has one, in list order, whatever map and trace it starts
from. -/
theorem initStatesTr_trace_general {σ V F : Type}
    (exts : List (ExtensionD σ V F)) :
    ∀ (m : Obj σ) (tr : List String),
      (exts.foldl
          (fun acc e =>
            match e.init with
            | some i => (setKey acc.1 e.name (i ()), acc.2 ++ [e.name])
            | none => acc)
          (m, tr)).2
        = tr ++ (exts.filter (fun e => e.init.isSome)).map
            (fun e => e.name) := by
  induction exts with
  | nil => intro m tr; simp
  | cons e rest ih =>
    intro m tr
    cases h : e.init <;> simp [List.foldl_cons, h, ih]

/-- C8: each `createAPI` call builds its own state map, running each
extension's `init` exactly once at that time (the trace is exactly the
names of the init-bearing extensions, in order); the context a call
resolves is computed from that activation's own freshly built map, so two
activations over extension lists with different `init` results (the
concrete counter instances) observe their own state only. -/
theorem c8_per_activation_extension_state :
    (∀ (σ V F : Type) (exts : List (ExtensionD σ V F)),
        (initStatesTr exts).2
          = (exts.filter (fun e => e.init.isSome)).map (fun e => e.name))
    ∧ (∀ (σ V F : Type) (d : Obj V) (rc : Option (RuntimeCtx V))
          (exts : List (ExtensionD σ V F)),
        createAPIResolve d rc exts
          = getContext d rc exts (initStates exts))
    ∧ createAPIResolve [] none [counterExt 1] = [("count", 1)]
    ∧ createAPIResolve [] none [counterExt 2] = [("count", 2)] := by
  refine ⟨?_, ?_, ?_, ?_⟩
  · intro σ V F exts
    unfold initStatesTr
    exact initStatesTr_trace_general exts [] []
  · intro σ V F d rc exts
    rfl
  · rfl
  · rfl

/-- The `lastContrib` fold over any starting accumulator. -/
theorem lastContrib_acc {σ V F : Type} (k : String)
    (exts : List (ExtensionD σ V F)) :
    ∀ (o : Option F),
      exts.foldl (fun a e => orO (getKey (extFns e) k) a) o
        = orO (lastContrib exts k) o := by
  induction exts with
  | nil => intro o; simp [lastContrib, orO]
  | cons e rest ih =>
    intro o
    rw [List.foldl_cons, ih]
    show _ = orO (lastContrib (e :: rest) k) o
    have hlast : lastContrib (e :: rest) k
        = rest.foldl (fun a ex => orO (getKey (extFns ex) k) a)
            (orO (getKey (extFns e) k) none) := rfl
    rw [hlast, ih, orO_none, orO_assoc]

/-- Later extensions override earlier ones in the builder fold, for any
starting accumulator. -/
theorem buildT_lookup_general {σ V F : Type} (k : String)
    (exts : List (ExtensionD σ V F)) :
    ∀ (acc : Obj F),
      getKey (exts.foldl (fun acc e => mergeObj acc (extFns e)) acc) k
        = orO (lastContrib exts k) (getKey acc k) := by
  induction exts with
  | nil => intro acc; simp [lastContrib, orO]
  | cons e rest ih =>
    intro acc
    rw [List.foldl_cons, ih, getKey_mergeObj]
    have hlast : lastContrib (e :: rest) k
        = orO (lastContrib rest k) (getKey (extFns e) k) := by
      have h0 : lastContrib (e :: rest) k
          = rest.foldl (fun a ex => orO (getKey (extFns ex) k) a)
              (orO (getKey (extFns e) k) none) := rfl
      rw [h0, lastContrib_acc, orO_none]
    rw [hlast, orO_assoc]

/-- C9: extension-contributed functions are merged onto the builder in
list order: the entry exposed under `k` is the latest contribution, the
initial `router` entry only when no extension contributes `k`; in
particular when two extensions both contribute `k`, the later one's
function is exposed (last-write-wins). -/
theorem c9_builder_functions_last_write_wins :
    (∀ (σ V F : Type) (routerV : F) (exts : List (ExtensionD σ V F))
        (k : String),
      getKey (buildT routerV exts) k
        = orO (lastContrib exts k) (getKey [("router", routerV)] k))
    ∧ ∀ (σ V F : Type) (routerV : F) (e1 e2 : ExtensionD σ V F)
        (k : String) (f2 : F),
        getKey (extFns e2) k = some f2 →
          getKey (buildT routerV [e1, e2]) k = some f2 := by
  constructor
  · intro σ V F routerV exts k
    unfold buildT
    exact buildT_lookup_general k exts [("router", routerV)]
  · intro σ V F routerV e1 e2 k f2 h2
    unfold buildT
    rw [buildT_lookup_general k [e1, e2] [("router", routerV)]]
    simp [lastContrib, List.foldl_cons, h2, orO]

/-- Closed instance of `c9_builder_functions_last_write_wins`: two
extensions both contribute a builder function named `"q"`; the one
exposed is the second's. -/
theorem c9_witness :
    getKey (buildT 0 [fnExt "x1" 1, fnExt "x2" 2]) "q" = some 2 :=
  c9_builder_functions_last_write_wins.2 Unit Unit Nat 0
    (fnExt "x1" 1) (fnExt "x2" 2) "q" 2 (by rfl)

/-- C4 (code evaluated at the failing input): activating the native
declaration tree `router(\x7ba: \x7bb: queryDecl\x7d\x7d)` preserves the tree's
keys, but the value at path `a.b` is a recursively copied plain object —
`t.query` builds an object, while `activateAPI` only turns nodes with
`typeof node === "function"` into endpoints — so the activated API does
not expose a callable at the declared path, contradicting the repo's own
`native.test.ts` (which calls `api.users.profile.getUser(...)`). -/
theorem c4_native_leaf_not_callable :
    activateAPIN (fun (p : Unit) => p) demoTree
      = NNode.objN
          [("a", NNode.objN
            [("b", NNode.objN
              [("_type", NNode.strN "query"),
                ("args", NNode.objN [] []),
                ("handler", NNode.funcN none ())] [])] [])] []
    ∧ ((getN (activateAPIN (fun (p : Unit) => p) demoTree) "a").bind
          (fun n => getN n "b")).map isFuncN
        = some false := by
  exact ⟨rfl, rfl⟩

/-- C7 (counterexample): in the `define.ts` engine, activating an
already-activated function does not pass it through unchanged — the
endpoint obtained by activating a declaration function is, on a second
activation, applied to the context provider instead of being returned. -/
theorem c7_counterexample :
    activateD () (activateD ()
        (DNode.func (fun _ : Unit =>
          DNode.func (fun _ : Unit => DNode.prim (0 : Nat)))))
      ≠ activateD ()
          (DNode.func (fun _ : Unit =>
            DNode.func (fun _ : Unit => DNode.prim (0 : Nat)))) := by
  intro h
  have e1 : activateD ()
      (DNode.func (fun _ : Unit =>
        DNode.func (fun _ : Unit => DNode.prim (0 : Nat))))
      = DNode.func (fun _ : Unit => DNode.prim (0 : Nat)) := rfl
  rw [e1] at h
  have e2 : activateD ()
      (DNode.func (fun _ : Unit => DNode.prim (0 : Nat)))
      = DNode.prim 0 := rfl
  rw [e2] at h
  cases h

/-- C7 (amended): in the native engine, every node that is not a
query/mutation-tagged function value and not a mapping passes through
activation unchanged — untagged or other-tagged functions (in
particular already-activated endpoints), strings, primitives and
`null`; in the `define.ts` engine this pass-through holds for
primitives and `null`, while function nodes are applied to the context
provider. -/
theorem c7_passthrough_amended :
    (∀ (P V : Type) (mk : P → P) (tag : Option String) (p : P),
        tag ≠ some "query" → tag ≠ some "mutation" →
          activateAPIN mk (NNode.funcN tag p : NNode P V)
            = NNode.funcN tag p)
    ∧ (∀ (P V : Type) (mk : P → P) (s : String),
        activateAPIN mk (NNode.strN s : NNode P V) = NNode.strN s)
    ∧ (∀ (P V : Type) (mk : P → P) (v : V),
        activateAPIN mk (NNode.primN v : NNode P V) = NNode.primN v)
    ∧ (∀ (P V : Type) (mk : P → P),
        activateAPIN mk (NNode.nullN : NNode P V) = NNode.nullN)
    ∧ (∀ (CP V : Type) (cp : CP) (v : V),
        activateD cp (DNode.prim v : DNode CP V) = DNode.prim v)
    ∧ ∀ (CP V : Type) (cp : CP),
        activateD cp (DNode.null : DNode CP V) = DNode.null := by
  refine ⟨?_, ?_, ?_, ?_, ?_, ?_⟩
  · intro P V mk tag p h1 h2
    simp [activateAPIN, h1, h2]
  · intro P V mk s
    rfl
  · intro P V mk v
    rfl
  · intro P V mk
    rfl
  · intro CP V cp v
    rfl
  · intro CP V cp
    rfl

/-- Closed instance of `c7_passthrough_amended`: a function value whose
`_type` is `"other"` survives native activation unchanged. -/
theorem c7_witness :
    activateAPIN (fun (p : Unit) => p)
        (NNode.funcN (some "other") () : NNode Unit Nat)
      = NNode.funcN (some "other") () :=
  c7_passthrough_amended.1 Unit Nat (fun p => p) (some "other") ()
    (by decide) (by decide)

end Fn
